import Mathlib

/-!
# Verification of the driver reconciliation-and-installation engine

A shallow embedding, in Lean 4, of the pure core of the driver manifest
reconciliation and installation orchestrator:

* `src/utils/driver_detector.py` — identifier normalization
  (`normalize_device_id`), version comparison (`compare_versions`), driver
  matching (`match_driver`) and the reconciler views
  (`list_not_installed_drivers`, `list_drivers_with_different_versions`,
  `list_drivers_needing_update`);
* `src/installer/core.py`, `src/installer/windows.py`,
  `src/installer/linux.py` — the installation orchestrator and its
  per-type fallback cascades.

Modelling conventions:

* Python strings are modelled as Lean `String`/`List Char`; character
  class operations (`upper`, `lower`, `isdigit`) follow Python's behaviour
  on ASCII text (the domain of every identifier, flag and version string
  the program manipulates).
* Process launches (`subprocess.run`) are modelled by an oracle
  `launch : Nat → Except Unit Int`: the k-th launch performed by a call
  either raises (`Except.error`) — covering `FileNotFoundError`,
  `PermissionError`, etc. — or returns an exit code (`Except.ok`).
  ZIP extraction and the current timestamp are likewise oracle
  parameters, so every installer is a total function of its oracles.
* The reconciler functions in the source load the manifest and probe the
  system; their pure cores are functions of the resulting two lists
  (`available`, `installed`), which is how they are embedded here.
-/

/-! ## Characters: Python `str.upper` / `str.lower` / `str.isdigit` (ASCII) -/

/-- Lowercase/uppercase ASCII letter pairs, used to model Python's
`str.upper` and `str.lower` on ASCII text. -/
def caseTable : List (Char × Char) :=
  [('a', 'A'), ('b', 'B'), ('c', 'C'), ('d', 'D'), ('e', 'E'), ('f', 'F'),
   ('g', 'G'), ('h', 'H'), ('i', 'I'), ('j', 'J'), ('k', 'K'), ('l', 'L'),
   ('m', 'M'), ('n', 'N'), ('o', 'O'), ('p', 'P'), ('q', 'Q'), ('r', 'R'),
   ('s', 'S'), ('t', 'T'), ('u', 'U'), ('v', 'V'), ('w', 'W'), ('x', 'X'),
   ('y', 'Y'), ('z', 'Z')]

/-- `str.upper` on one character. -/
def pyUpperChar (c : Char) : Char :=
  ((caseTable.find? (fun p => p.1 = c)).map Prod.snd).getD c

/-- `str.lower` on one character. -/
def pyLowerChar (c : Char) : Char :=
  ((caseTable.find? (fun p => p.2 = c)).map Prod.fst).getD c

/-- `str.upper` on a character list. -/
def pyUpperList (l : List Char) : List Char := l.map pyUpperChar

/-- `str.upper` on a string. -/
def pyUpper (s : String) : String := ⟨pyUpperList s.data⟩

/-- `str.lower` on a string. -/
def pyLower (s : String) : String := ⟨s.data.map pyLowerChar⟩

/-- `str.isdigit` on one character (ASCII decimal digit). -/
def isDigitChar (c : Char) : Bool := '0' ≤ c && c ≤ '9'

theorem pyUpperChar_fixed (c : Char) : pyUpperChar (pyUpperChar c) = pyUpperChar c := by
  cases h : caseTable.find? (fun p => p.1 = c) with
  | none => simp [pyUpperChar, h]
  | some p =>
      have hmem : p ∈ caseTable := List.mem_of_find?_eq_some h
      have hv : pyUpperChar c = p.2 := by simp [pyUpperChar, h]
      rw [hv]
      fin_cases hmem <;> decide

/-! ## Splitting and numeric parsing (`compare_versions` helpers) -/

/-- Python `s.split(sep)` for a one-character separator: `"".split('.') = [""]`,
empty components are kept. -/
def splitOnChar (sep : Char) : List Char → List (List Char)
  | [] => [[]]
  | c :: rest =>
      match splitOnChar sep rest with
      | [] => if c = sep then [[], []] else [[c]]
      | h :: t => if c = sep then [] :: h :: t else (c :: h) :: t

/-- Python `s.isdigit()` on a component (ASCII): non-empty and all digits. -/
def isDigits (l : List Char) : Bool := !l.isEmpty && l.all isDigitChar

/-- Decimal value of a digit string (`int(x)` for `x` that passed `isdigit`). -/
def natOfDigits (l : List Char) : Nat :=
  l.foldl (fun acc c => 10 * acc + (c.toNat - '0'.toNat)) 0

/-- The numeric components of a version string:
`[int(x) for x in version.split('.') if x.isdigit()]` from `compare_versions`. -/
def numericParts (v : String) : List Nat :=
  ((splitOnChar '.' v.data).filter isDigits).map natOfDigits

/-- Element-wise comparison loop of `compare_versions`: the two lists have been
padded to equal length; return at the first difference, else `0`. -/
def cmpNumLists : List Nat → List Nat → Int
  | a :: as, b :: bs =>
      if a < b then -1 else if b < a then 1 else cmpNumLists as bs
  | _, _ => 0

/-- `compare_versions(version1, version2)` from `src/utils/driver_detector.py`:
empty input on either side is defined as equal; otherwise split on `'.'`, keep
the purely numeric components, pad the shorter side with zeros, compare
element-wise.  The `except`-branch of the source (lexical string comparison) is
unreachable on ASCII inputs: `int(x)` cannot raise once `x.isdigit()` holds. -/
def compareVersions (version1 version2 : String) : Int :=
  if version1 = "" ∨ version2 = "" then 0
  else
    let parts1 := numericParts version1
    let parts2 := numericParts version2
    let maxLen := max parts1.length parts2.length
    cmpNumLists (parts1 ++ List.replicate (maxLen - parts1.length) 0)
      (parts2 ++ List.replicate (maxLen - parts2.length) 0)

/-- Python lexicographic `<` on strings (code-point order), used by the
spec's claimed lexical fallback. -/
def pyStrLt : List Char → List Char → Bool
  | [], [] => false
  | [], _ :: _ => true
  | _ :: _, [] => false
  | a :: as, b :: bs =>
      if a.toNat < b.toNat then true
      else if b.toNat < a.toNat then false
      else pyStrLt as bs

/-- Modelled from the spec's words (§4.2): ordinary lexical string comparison
of the original inputs, the claimed fallback result when either side has zero
numeric components. -/
def specLexCompare (a b : String) : Int :=
  if pyStrLt a.data b.data then -1
  else if pyStrLt b.data a.data then 1
  else 0

/-- Modelled from the spec's words (§4.2, claim C3): split on `'.'`, keep the
purely numeric components, pad the shorter numeric sequence with zeros to equal
length, compare element-wise and return at the first difference; either input
being empty is defined as equal. -/
def specCompareVersions (a b : String) : Int :=
  if a = "" ∨ b = "" then 0
  else
    let p1 := numericParts a
    let p2 := numericParts b
    let n := max p1.length p2.length
    specFirstDiff ((p1 ++ List.replicate (n - p1.length) 0).zip
      (p2 ++ List.replicate (n - p2.length) 0))
where
  specFirstDiff : List (Nat × Nat) → Int
    | [] => 0
    | (a, b) :: r => if a ≠ b then (if a < b then -1 else 1) else specFirstDiff r

theorem cmpNumLists_self (l : List Nat) : cmpNumLists l l = 0 := by
  induction l with
  | nil => rfl
  | cons a as ih => simp [cmpNumLists, ih]

theorem cmpNumLists_eq_specFirstDiff (l₁ l₂ : List Nat) :
    cmpNumLists l₁ l₂ = specCompareVersions.specFirstDiff (l₁.zip l₂) := by
  induction l₁ generalizing l₂ with
  | nil => cases l₂ <;> rfl
  | cons a as ih =>
      cases l₂ with
      | nil => rfl
      | cons b bs =>
          simp only [cmpNumLists, List.zip_cons_cons, specCompareVersions.specFirstDiff, ih]
          rcases Nat.lt_trichotomy a b with h | h | h
          · simp [h, Nat.ne_of_lt h, Nat.not_lt_of_lt h]
          · simp [h, List.zip]
          · simp [Nat.not_lt_of_lt h, h, (Nat.ne_of_lt h).symm, Nat.lt_asymm h]

theorem cmpNumLists_zeros_left (l : List Nat) (n : Nat) :
    cmpNumLists (List.replicate n 0) l =
      if (l.take n).all (· = 0) then 0 else -1 := by
  induction l generalizing n with
  | nil => cases n <;> simp [cmpNumLists]
  | cons b bs ih =>
      cases n with
      | zero => simp [cmpNumLists]
      | succ m =>
          simp only [List.replicate_succ, List.take_succ_cons, List.all_cons]
          by_cases hb : b = 0
          · subst hb
            simpa [cmpNumLists] using ih m
          · have : 0 < b := Nat.pos_of_ne_zero hb
            simp [cmpNumLists, this, hb]

theorem cmpNumLists_zeros_right (l : List Nat) (n : Nat) :
    cmpNumLists l (List.replicate n 0) =
      if (l.take n).all (· = 0) then 0 else 1 := by
  induction l generalizing n with
  | nil => cases n <;> simp [cmpNumLists]
  | cons b bs ih =>
      cases n with
      | zero => simp [cmpNumLists]
      | succ m =>
          simp only [List.replicate_succ, List.take_succ_cons, List.all_cons]
          by_cases hb : b = 0
          · subst hb
            simpa [cmpNumLists] using ih m
          · have : 0 < b := Nat.pos_of_ne_zero hb
            simp [cmpNumLists, Nat.not_lt_of_lt this, this, hb]

theorem compareVersions_eq_spec (a b : String) :
    compareVersions a b = specCompareVersions a b := by
  unfold compareVersions specCompareVersions
  split
  · rfl
  · exact cmpNumLists_eq_specFirstDiff _ _

theorem compareVersions_self (v : String) : compareVersions v v = 0 := by
  unfold compareVersions
  split
  · rfl
  · exact cmpNumLists_self _

/-- C3: `compare_versions` splits each non-empty input on `'.'`, keeps only the
purely numeric components, pads the shorter numeric sequence with zeros and
returns `-1`/`1` at the first element-wise difference, `0` if there is none
(`specCompareVersions` states exactly this policy in the spec's words);
in particular `compare("1.2.0","1.10.0") = -1` (numeric, not lexical, order),
`compare(v,v) = 0` for every `v`, and `compare("","1.0") = 0` because either
input being empty is defined as equal. -/
theorem compareVersions_numeric_spec :
    (∀ a b : String, compareVersions a b = specCompareVersions a b) ∧
    compareVersions "1.2.0" "1.10.0" = -1 ∧
    (∀ v : String, compareVersions v v = 0) ∧
    compareVersions "" "1.0" = 0 :=
  ⟨compareVersions_eq_spec, by decide, compareVersions_self, by decide⟩

/-- C2, counterexample: `"a"` and `"b"` both have zero numeric components after
filtering, yet `compare_versions` returns `0` — not the lexical comparison
result `-1` the claim demands.  The claimed behaviour and the code's behaviour
disagree at this input. -/
theorem compareVersions_lexical_fallback_counterexample :
    numericParts "a" = [] ∧ numericParts "b" = [] ∧
    specLexCompare "a" "b" = -1 ∧ compareVersions "a" "b" = 0 ∧
    compareVersions "a" "b" ≠ specLexCompare "a" "b" := by
  decide

/-- C2, amended: when a non-empty input has zero numeric components after
filtering, `compare_versions` does not fall back to lexical comparison — the
empty side is padded with zeros and compared numerically, so the result is `0`
when the other side's numeric components are all zero (in particular when both
sides are empty), and otherwise the side without numeric components orders
first.  The lexical-fallback branch of the source is unreachable for such
inputs. -/
theorem compareVersions_empty_numeric_side (a b : String)
    (ha : a ≠ "") (hb : b ≠ "") :
    (numericParts a = [] →
      compareVersions a b = if (numericParts b).all (· = 0) then 0 else -1) ∧
    (numericParts b = [] →
      compareVersions a b = if (numericParts a).all (· = 0) then 0 else 1) := by
  have hne : ¬(a = "" ∨ b = "") := by simp [ha, hb]
  constructor
  · intro h0
    unfold compareVersions
    rw [if_neg hne]
    simp only [h0, List.length_nil, Nat.zero_max, Nat.sub_self, List.nil_append,
      List.replicate_zero, List.append_nil, Nat.sub_zero]
    rw [cmpNumLists_zeros_left, List.take_length]
  · intro h0
    unfold compareVersions
    rw [if_neg hne]
    simp only [h0, List.length_nil, Nat.max_zero, Nat.sub_self, List.nil_append,
      List.replicate_zero, List.append_nil, Nat.sub_zero]
    rw [cmpNumLists_zeros_right, List.take_length]

/-- C2, witness: the amended theorem applied at `("beta", "1.0")`, an input
whose left side has zero numeric components. -/
theorem compareVersions_empty_numeric_side_witness :
    compareVersions "beta" "1.0" = -1 :=
  ((compareVersions_empty_numeric_side "beta" "1.0" (by decide) (by decide)).1
    (by decide)).trans (by decide)

/-! ## Pattern search and removal (Python `in`, `index`, `replace`) -/

/-- Python `s.index(pat)` (and `pat in s`): index of the first occurrence of
`pat` in `s`, `none` when absent (for non-empty `pat`). -/
def findPat (pat : List Char) : List Char → Option Nat
  | [] => if pat.isPrefixOf [] then some 0 else none
  | c :: rest =>
      if pat.isPrefixOf (c :: rest) then some 0
      else (findPat pat rest).map (· + 1)

/-- Python `pat in s` for a non-empty pattern. -/
def hasPat (pat s : List Char) : Bool := (findPat pat s).isSome

/-- Worker for Python `s.replace(pat, '')`: scan left to right; a positive
`skip` means that many characters still belong to a matched occurrence and are
dropped without rescanning (Python's `replace` does not rescan inside a
replaced occurrence). -/
def removeAllAux (pat : List Char) (skip : Nat) : List Char → List Char
  | [] => []
  | c :: rest =>
      match skip with
      | k + 1 => removeAllAux pat k rest
      | 0 =>
          if pat.isPrefixOf (c :: rest) ∧ pat ≠ [] then
            removeAllAux pat (pat.length - 1) rest
          else c :: removeAllAux pat 0 rest

/-- Python `s.replace(pat, '')` for a non-empty pattern: remove all
non-overlapping occurrences, scanning left to right. -/
def removeAll (pat s : List Char) : List Char := removeAllAux pat 0 s

/-- Python slice `s[a:b]`. -/
def listSlice (l : List Char) (a b : Nat) : List Char := (l.drop a).take (b - a)

/-! ## `normalize_device_id` from `src/utils/driver_detector.py` -/

/-- The `vendor` slice of the `VEN_`/`DEV_` extraction step of
`normalize_device_id`: the value after the first `VEN_`, up to the next `&` or
end of string.  The source's `try`/`except` around the extraction is dead: the
`index` calls on the tokens are guarded by the `in` test and the
`index('&', start)` calls by the slice membership test, so no exception can
occur. -/
def venField (s : List Char) : List Char :=
  let vs := (findPat ("VEN_".data) s).getD 0 + 4
  let ve := match findPat ['&'] (s.drop vs) with
    | some k => vs + k
    | none => s.length
  listSlice s vs ve

/-- The `device` slice of the extraction step: the value after the first
`DEV_`, up to the next `&` or end of string. -/
def devField (s : List Char) : List Char :=
  let ds := (findPat ("DEV_".data) s).getD 0 + 4
  let de := match findPat ['&'] (s.drop ds) with
    | some k => ds + k
    | none => s.length
  listSlice s ds de

/-- `f"VEN_{vendor}&DEV_{device}"`, the extraction step's result. -/
def venDevExtract (s : List Char) : List Char :=
  "VEN_".data ++ venField s ++ ('&' :: ("DEV_".data ++ devField s))

/-- `normalize_device_id` on a character list: empty input yields empty output;
otherwise uppercase, strip the bus prefixes `PCI\`, `HDAUDIO\`, `USB\`, `ACPI\`
(in that order), and extract `VEN_…&DEV_…` when both tokens are present. -/
def normCore (s : List Char) : List Char :=
  if s = [] then []
  else
    let u := pyUpperList s
    let r := removeAll ("ACPI\\".data)
      (removeAll ("USB\\".data)
        (removeAll ("HDAUDIO\\".data)
          (removeAll ("PCI\\".data) u)))
    if hasPat ("VEN_".data) r ∧ hasPat ("DEV_".data) r then venDevExtract r
    else r

/-- `normalize_device_id(device_id)` from `src/utils/driver_detector.py`. -/
def normalizeDeviceId (s : String) : String := ⟨normCore s.data⟩

/-! ## `match_driver` from `src/utils/driver_detector.py` -/

/-- A manifest entry (`ManifestEntry` of the spec's data model, the untyped
driver dictionaries of the source).  `version`, `deviceId` and `os` model
`entry.get(key, '')`; `silentArgs` and `url` model `entry.get(key)` /
`entry.get(key, default)`; `current_version` models the presence of the
`'current_version'` key that `list_drivers_needing_update` adds to mismatch
entries (dictionary equality, used by its `not in` check, sees this key). -/
structure ManifestEntry where
  name : String
  version : String
  deviceId : String
  os : String
  type : String
  silentArgs : Option String
  url : Option String
  current_version : Option String
  deriving DecidableEq

/-- A system-observed driver (`InstalledDriver` of the spec's data model): the
probe always populates `name`, `version` and `deviceId`. -/
structure InstalledDriver where
  name : String
  version : String
  deviceId : String
  deriving DecidableEq

/-- Python whitespace, for `str.split()` with no arguments (ASCII). -/
def isSpaceChar (c : Char) : Bool :=
  c = ' ' || c = '\t' || c = '\n' || c = '\r' || c = '\x0b' || c = '\x0c'

/-- Worker for `str.split()`: split on runs of whitespace, no empty tokens. -/
def splitWSAux : List Char → List Char → List (List Char)
  | [], acc => if acc.isEmpty then [] else [acc.reverse]
  | c :: rest, acc =>
      if isSpaceChar c then
        if acc.isEmpty then splitWSAux rest []
        else acc.reverse :: splitWSAux rest []
      else splitWSAux rest (c :: acc)

/-- `name.lower().split()`: the name tokens `match_driver` intersects. -/
def nameTokens (s : String) : List String :=
  (splitWSAux (pyLower s).data []).map (fun l => (⟨l⟩ : String))

/-- `len(set(available_name.split()) & set(installed_name.split()))`:
the number of distinct common tokens of the two lower-cased names. -/
def commonTokenCount (a b : String) : Nat :=
  ((nameTokens a).dedup.filter (fun t => t ∈ nameTokens b)).length

/-- The per-candidate test of `match_driver`: identifier strategy (both
normalized device IDs non-empty and equal), else name strategy (both names
non-empty and at least 2 distinct common tokens). -/
def driverMatchTest (available : ManifestEntry) (inst : InstalledDriver) : Bool :=
  let aid := normalizeDeviceId available.deviceId
  let iid := normalizeDeviceId inst.deviceId
  let an := pyLower available.name
  let inn := pyLower inst.name
  (!(aid == "") && !(iid == "") && aid == iid) ||
    (!(an == "") && !(inn == "") && commonTokenCount available.name inst.name ≥ 2)

/-- `match_driver(available_driver, installed_drivers)`: first candidate, in
list order, satisfying either strategy; `None` when no candidate does. -/
def matchDriver (available : ManifestEntry) : List InstalledDriver → Option InstalledDriver
  | [] => none
  | inst :: rest =>
      if driverMatchTest available inst then some inst
      else matchDriver available rest

/-- The spec's matching scenario: the manifest entry. -/
def wifiEntry : ManifestEntry :=
  { name := "Intel Wi-Fi 6", version := "22.190.0",
    deviceId := "PCI\\VEN_8086&DEV_2723", os := "windows", type := "exe",
    silentArgs := none, url := none, current_version := none }

/-- The spec's matching scenario: the installed driver. -/
def wifiInstalled : InstalledDriver :=
  { name := "Intel(R) Wi-Fi 6 AX201", version := "22.100.0",
    deviceId := "PCI\\VEN_8086&DEV_2723&SUBSYS_1234" }

/-- C4: `match_driver` returns `None` when no installed candidate satisfies
either strategy; a candidate whose non-empty normalized device ID equals the
entry's is returned whatever the names are; and in the spec's scenario the
`SUBSYS`-suffixed installed ID normalizes to the entry's `VEN_8086&DEV_2723`,
so the match succeeds via the identifier strategy. -/
theorem matchDriver_spec :
    (∀ (e : ManifestEntry) (installed : List InstalledDriver),
      (∀ c ∈ installed, driverMatchTest e c = false) →
      matchDriver e installed = none) ∧
    (∀ (e : ManifestEntry) (c : InstalledDriver),
      normalizeDeviceId e.deviceId ≠ "" →
      normalizeDeviceId e.deviceId = normalizeDeviceId c.deviceId →
      matchDriver e [c] = some c) ∧
    normalizeDeviceId "PCI\\VEN_8086&DEV_2723" = "VEN_8086&DEV_2723" ∧
    normalizeDeviceId "PCI\\VEN_8086&DEV_2723&SUBSYS_1234" = "VEN_8086&DEV_2723" ∧
    matchDriver wifiEntry [wifiInstalled] = some wifiInstalled := by
  refine ⟨?_, ?_, by decide, by decide, by decide⟩
  · intro e installed h
    induction installed with
    | nil => rfl
    | cons c rest ih =>
        have hc := h c (List.mem_cons_self c rest)
        simp only [matchDriver, hc, if_false, Bool.false_eq_true]
        exact ih fun d hd => h d (List.mem_cons_of_mem c hd)
  · intro e c h1 h2
    have : driverMatchTest e c = true := by
      simp only [driverMatchTest, Bool.or_eq_true, Bool.and_eq_true]
      refine Or.inl ⟨⟨?_, ?_⟩, ?_⟩
      · simpa using h1
      · simpa using h2 ▸ h1
      · simpa using h2
    simp [matchDriver, this]

/-- C4, witness: the matcher theorem applied at the spec's concrete scenario
(first clause at an empty installed list, second at the Wi-Fi pair). -/
theorem matchDriver_spec_witness :
    matchDriver wifiEntry [] = none ∧
    matchDriver wifiEntry [wifiInstalled] = some wifiInstalled :=
  ⟨matchDriver_spec.1 wifiEntry [] (by intro c hc; cases hc),
   matchDriver_spec.2.1 wifiEntry wifiInstalled (by decide) (by decide)⟩

/-- C9, counterexample: `normalize_device_id` is not idempotent.  Stripping
`USB\` from `"PUSB\CI\A"` re-creates a `PCI\` prefix, which only a second pass
removes: `normalize("PUSB\CI\A") = "PCI\A"` but
`normalize("PCI\A") = "A"`. -/
theorem normalize_idem_counterexample :
    normalizeDeviceId (normalizeDeviceId "PUSB\\CI\\A") ≠
      normalizeDeviceId "PUSB\\CI\\A" ∧
    normalizeDeviceId "PUSB\\CI\\A" = "PCI\\A" ∧
    normalizeDeviceId "PCI\\A" = "A" := by
  decide

/-! ## Reconciler views from `src/utils/driver_detector.py`

The source functions load the manifest and probe the system, then compute
pure list transformations; the pure cores over `(available, installed)` are
embedded here. -/

/-- `list_not_installed_drivers`: the available entries for which
`match_driver` returns `None`. -/
def listNotInstalled (available : List ManifestEntry)
    (installed : List InstalledDriver) : List ManifestEntry :=
  available.filter (fun e => (matchDriver e installed).isNone)

/-- `list_drivers_with_different_versions`: pairs `(entry, matched)` for
available entries that match and whose non-empty versions differ
(`compare_versions(installed_version, available_version) != 0`). -/
def listDiffVersions (available : List ManifestEntry)
    (installed : List InstalledDriver) : List (ManifestEntry × InstalledDriver) :=
  available.filterMap (fun e =>
    match matchDriver e installed with
    | none => none
    | some m =>
        if e.version ≠ "" ∧ m.version ≠ "" ∧ compareVersions m.version e.version ≠ 0 then
          some (e, m)
        else none)

/-- `driver_copy['current_version'] = installed.get('version', 'unknown')` in
`list_drivers_needing_update` (the probe always populates `version`, so the
`'unknown'` default never fires in the modelled flows). -/
def annotEntry (e : ManifestEntry) (m : InstalledDriver) : ManifestEntry :=
  { e with current_version := some m.version }

/-- One step of the combining loop of `list_drivers_needing_update`:
`if available not in needing_update: needing_update.append(driver_copy)`. -/
def needingFold (acc : List ManifestEntry)
    (p : ManifestEntry × InstalledDriver) : List ManifestEntry :=
  if p.1 ∈ acc then acc else acc ++ [annotEntry p.1 p.2]

/-- `list_drivers_needing_update`: the not-installed entries, followed by the
version-mismatched entries annotated with `current_version`. -/
def listNeedingUpdate (available : List ManifestEntry)
    (installed : List InstalledDriver) : List ManifestEntry :=
  (listDiffVersions available installed).foldl needingFold
    (listNotInstalled available installed)

/-- Forget the `current_version` annotation (comparison of a `needingUpdate`
element with the manifest entry it stems from). -/
def stripCurrent (e : ManifestEntry) : ManifestEntry :=
  { e with current_version := none }

theorem mem_needingFold_of_mem {e : ManifestEntry} {acc : List ManifestEntry}
    (p : ManifestEntry × InstalledDriver) (h : e ∈ acc) : e ∈ needingFold acc p := by
  unfold needingFold
  split
  · exact h
  · exact List.mem_append_left _ h

theorem mem_foldl_needingFold_of_mem {e : ManifestEntry}
    (l : List (ManifestEntry × InstalledDriver)) (acc : List ManifestEntry)
    (h : e ∈ acc) : e ∈ l.foldl needingFold acc := by
  induction l generalizing acc with
  | nil => exact h
  | cons p rest ih => exact ih _ (mem_needingFold_of_mem p h)

theorem mem_foldl_needingFold (e : ManifestEntry)
    (l : List (ManifestEntry × InstalledDriver)) (acc : List ManifestEntry)
    (h : e ∈ l.foldl needingFold acc) :
    e ∈ acc ∨ ∃ p ∈ l, e = annotEntry p.1 p.2 := by
  induction l generalizing acc with
  | nil => exact Or.inl h
  | cons p rest ih =>
      rcases ih (needingFold acc p) h with hin | ⟨q, hq, he⟩
      · unfold needingFold at hin
        split at hin
        · exact Or.inl hin
        · rcases List.mem_append.mp hin with h' | h'
          · exact Or.inl h'
          · exact Or.inr ⟨p, List.mem_cons_self p rest, List.mem_singleton.mp h'⟩
      · exact Or.inr ⟨q, List.mem_cons_of_mem p hq, he⟩

theorem strip_annot (e : ManifestEntry) (m : InstalledDriver) :
    stripCurrent (annotEntry e m) = stripCurrent e := rfl

theorem pair_reaches_foldl (p : ManifestEntry × InstalledDriver)
    (l : List (ManifestEntry × InstalledDriver)) (acc : List ManifestEntry)
    (h : p ∈ l) :
    ∃ e' ∈ l.foldl needingFold acc, stripCurrent e' = stripCurrent p.1 := by
  induction l generalizing acc with
  | nil => cases h
  | cons q rest ih =>
      rw [List.foldl_cons]
      rcases List.mem_cons.mp h with rfl | hp
      · by_cases hin : p.1 ∈ acc
        · exact ⟨p.1,
            mem_foldl_needingFold_of_mem rest _ (mem_needingFold_of_mem p hin), rfl⟩
        · refine ⟨annotEntry p.1 p.2, mem_foldl_needingFold_of_mem rest _ ?_,
            strip_annot _ _⟩
          unfold needingFold
          rw [if_neg hin]
          exact List.mem_append_right _ (List.mem_singleton.mpr rfl)
      · exact ih _ hp

/-- C5: for any available list and installed list — every `notInstalled` entry
is in `needingUpdate`; every manifest entry of a `versionMismatched` pair is in
`needingUpdate` up to its `current_version` annotation; every `needingUpdate`
element without `current_version` comes from `notInstalled`; and every element
that stems from a mismatch is the pair's entry annotated with the matched
installed driver's version. -/
theorem needingUpdate_invariants (available : List ManifestEntry)
    (installed : List InstalledDriver) :
    (∀ e ∈ listNotInstalled available installed,
      e ∈ listNeedingUpdate available installed) ∧
    (∀ p ∈ listDiffVersions available installed,
      ∃ e' ∈ listNeedingUpdate available installed,
        stripCurrent e' = stripCurrent p.1) ∧
    (∀ e ∈ listNeedingUpdate available installed,
      e.current_version = none → e ∈ listNotInstalled available installed) ∧
    (∀ e ∈ listNeedingUpdate available installed,
      e ∈ listNotInstalled available installed ∨
        ∃ p ∈ listDiffVersions available installed,
          e = annotEntry p.1 p.2 ∧ e.current_version = some p.2.version) := by
  refine ⟨?_, ?_, ?_, ?_⟩
  · intro e he
    exact mem_foldl_needingFold_of_mem _ _ he
  · intro p hp
    exact pair_reaches_foldl p _ _ hp
  · intro e he hnone
    rcases mem_foldl_needingFold e _ _ he with h | ⟨p, _, rfl⟩
    · exact h
    · simp [annotEntry] at hnone
  · intro e he
    rcases mem_foldl_needingFold e _ _ he with h | ⟨p, hp, rfl⟩
    · exact Or.inl h
    · exact Or.inr ⟨p, hp, rfl, rfl⟩

/-- C5, witness: the invariants applied to the spec's Wi-Fi scenario, where the
single manifest entry matches with a version mismatch: `needingUpdate` contains
it up to the `current_version` annotation, and that element carries
`current_version = "22.100.0"`. -/
theorem needingUpdate_invariants_witness :
    (∃ e' ∈ listNeedingUpdate [wifiEntry] [wifiInstalled],
      stripCurrent e' = stripCurrent wifiEntry) ∧
    (annotEntry wifiEntry wifiInstalled ∈ listNeedingUpdate [wifiEntry] [wifiInstalled] →
      annotEntry wifiEntry wifiInstalled ∈ listNotInstalled [wifiEntry] [wifiInstalled] ∨
        ∃ p ∈ listDiffVersions [wifiEntry] [wifiInstalled],
          annotEntry wifiEntry wifiInstalled = annotEntry p.1 p.2 ∧
            (annotEntry wifiEntry wifiInstalled).current_version = some p.2.version) :=
  ⟨(needingUpdate_invariants [wifiEntry] [wifiInstalled]).2.1
      (wifiEntry, wifiInstalled) (by decide),
   fun h => (needingUpdate_invariants [wifiEntry] [wifiInstalled]).2.2.2 _ h⟩

/-- C10: for fixed manifest and installed lists, `notInstalled` and the entries
of `versionMismatched` pairs are disjoint: matching is a deterministic function
of the entry and the installed list, so an entry cannot both have no match (be
`notInstalled`) and have a match (occur in a mismatch pair). -/
theorem notInstalled_mismatch_disjoint (available : List ManifestEntry)
    (installed : List InstalledDriver) (e : ManifestEntry) (m : InstalledDriver)
    (h : e ∈ listNotInstalled available installed) :
    (e, m) ∉ listDiffVersions available installed := by
  intro hmem
  have hnone : matchDriver e installed = none := by
    have := List.of_mem_filter h
    simpa [Option.isNone_iff_eq_none] using this
  rcases List.mem_filterMap.mp hmem with ⟨a, _, hf⟩
  cases hma : matchDriver a installed with
  | none => rw [hma] at hf; exact Option.noConfusion hf
  | some m₀ =>
      rw [hma] at hf
      dsimp only at hf
      by_cases hcond : a.version ≠ "" ∧ m₀.version ≠ "" ∧
          compareVersions m₀.version a.version ≠ 0
      · rw [if_pos hcond] at hf
        simp only [Option.some.injEq, Prod.mk.injEq] at hf
        obtain ⟨rfl, rfl⟩ := hf
        rw [hnone] at hma
        exact Option.noConfusion hma
      · rw [if_neg hcond] at hf
        exact Option.noConfusion hf

/-- C10, witness: the disjointness theorem applied at a concrete instance where
the entry has no match (empty installed list). -/
theorem notInstalled_mismatch_disjoint_witness :
    (wifiEntry, wifiInstalled) ∉ listDiffVersions [wifiEntry] [] :=
  notInstalled_mismatch_disjoint [wifiEntry] [] wifiEntry wifiInstalled (by decide)

/-! ## Installation orchestrator

`src/installer/windows.py`, `src/installer/linux.py`, `src/installer/core.py`.
Process launches are abstracted by `launch : Nat → Except Unit Int` (the k-th
`subprocess.run` of a call raises, or returns an exit code); ZIP extraction by
`extract : Except Unit (List String)` (raises, or yields the extracted file
paths); `datetime.now().isoformat()` by a `timestamp` parameter. -/

/-- Exit codes accepted as success for Windows installers: `0`, `3010`
("success, reboot required"), `1641` ("success, reboot initiated"). -/
def acceptedExit (c : Int) : Bool := c == 0 || c == 3010 || c == 1641

/-- The `silent_args_list` of `install_exe`: the manifest's custom arguments
first (skipped when `None`), then the fixed fallback flags. -/
def exeArgsList (silentArgs : Option String) : List (Option String) :=
  [silentArgs, some "/S", some "/silent", some "/quiet", some "/verysilent",
   some "/s", some "/s /v\"/qn\"", some "/S /v\"/qn\""]

/-- The flag sets `install_exe` actually launches, in order (the `None` entry
is skipped by the loop's `continue`). -/
def exeAttempts (silentArgs : Option String) : List String :=
  (exeArgsList silentArgs).filterMap id

/-- The attempt loop of `install_exe` over the remaining flag sets, `k` being
the index of the next launch: a launch exception is caught and the loop
continues; an accepted exit code returns success; after the loop a final
flag-free launch returns `(False, returncode)` whatever the code, and
`(False, -1)` if that launch itself raises. -/
def installExeGo (launch : Nat → Except Unit Int) (k : Nat) :
    List String → Bool × Int
  | [] =>
      match launch k with
      | .ok c => (false, c)
      | .error _ => (false, -1)
  | _ :: rest =>
      match launch k with
      | .ok c => if acceptedExit c then (true, c) else installExeGo launch (k + 1) rest
      | .error _ => installExeGo launch (k + 1) rest

/-- `install_exe(file_path, silent_args)` from `src/installer/windows.py`. -/
def installExe (launch : Nat → Except Unit Int) (filePath : String)
    (silentArgs : Option String) : Bool × Int :=
  installExeGo launch 0 (exeAttempts silentArgs)

/-- `install_msi(file_path)` from `src/installer/windows.py`: one `msiexec`
launch; accepted exit codes 0/3010/1641; exception degrades to `(False, -1)`. -/
def installMsi (launch : Nat → Except Unit Int) (filePath : String) : Bool × Int :=
  match launch 0 with
  | .ok c => if acceptedExit c then (true, c) else (false, c)
  | .error _ => (false, -1)

/-- `install_deb(file_path)` from `src/installer/linux.py`: `dpkg -i`, then on
nonzero exit `apt install -y`; any exception degrades to `(False, -1)`. -/
def installDeb (launch : Nat → Except Unit Int) (filePath : String) : Bool × Int :=
  match launch 0 with
  | .error _ => (false, -1)
  | .ok c =>
      if c == 0 then (true, c)
      else
        match launch 1 with
        | .error _ => (false, -1)
        | .ok c2 => if c2 == 0 then (true, c2) else (false, c2)

/-- `install_rpm(file_path)` from `src/installer/linux.py`: `rpm -i`, then
`dnf install -y`, then `yum install -y`, stopping at the first zero exit code;
any exception degrades to `(False, -1)`. -/
def installRpm (launch : Nat → Except Unit Int) (filePath : String) : Bool × Int :=
  match launch 0 with
  | .error _ => (false, -1)
  | .ok c =>
      if c == 0 then (true, c)
      else
        match launch 1 with
        | .error _ => (false, -1)
        | .ok c2 =>
            if c2 == 0 then (true, c2)
            else
              match launch 2 with
              | .error _ => (false, -1)
              | .ok c3 => if c3 == 0 then (true, c3) else (false, c3)

/-- Python `<` on strings as a Bool `≤` (for `sorted`). -/
def strLeB (a b : String) : Bool := !(pyStrLt b.data a.data)

/-- Insertion step of `sorted` on path strings. -/
def insertStr (x : String) : List String → List String
  | [] => [x]
  | y :: ys => if strLeB x y then x :: y :: ys else y :: insertStr x ys

/-- `sorted` on path strings. -/
def sortStrings : List String → List String
  | [] => []
  | x :: xs => insertStr x (sortStrings xs)

/-- `s.endswith(t)` on path strings (the `rglob('*.exe')` / `rglob('*.msi')`
pattern match on file names). -/
def strEndsWith (s t : String) : Bool := t.data.isSuffixOf s.data

/-- The characters after the last `'.'`, if any (worker for `Path.suffix`). -/
def lastDotTail : List Char → Option (List Char)
  | [] => none
  | c :: rest =>
      match lastDotTail rest with
      | some t => some t
      | none => if c = '.' then some rest else none

/-- `Path.suffix`: the extension including its dot, `""` when there is none. -/
def fileSuffix (s : String) : String :=
  match lastDotTail s.data with
  | some t => ⟨'.' :: t⟩
  | none => ""

/-- `install_zip(file_path)` from `src/installer/windows.py`: extract, collect
the `*.exe` and `*.msi` files in sorted order, recurse into `install_exe` /
`install_msi` on the first one; no installer or any exception yields
`(False, -1)`. -/
def installZip (launch : Nat → Except Unit Int)
    (extract : Except Unit (List String)) (filePath : String) : Bool × Int :=
  match extract with
  | .error _ => (false, -1)
  | .ok files =>
      let installers := sortStrings
        (files.filter (fun f => strEndsWith f ".exe") ++
          files.filter (fun f => strEndsWith f ".msi"))
      match installers with
      | [] => (false, -1)
      | f :: _ =>
          if pyLower (fileSuffix f) = ".exe" then installExe launch f none
          else if pyLower (fileSuffix f) = ".msi" then installMsi launch f
          else (false, -1)

/-- `'=' * 50`, the separator line of the manual note. -/
def eqSeparator : String := ⟨List.replicate 50 '='⟩

/-- The note file content written by `create_manual_note` in
`src/installer/core.py`. -/
def manualNoteContent (entry : ManifestEntry) (timestamp : String) : String :=
  "Manual Installation Required\n" ++
  eqSeparator ++ "\n\n" ++
  "Driver: " ++ entry.name ++ "\n" ++
  "URL: " ++ entry.url.getD "No URL provided" ++ "\n" ++
  "Timestamp: " ++ timestamp ++ "\n\n" ++
  "Please download and install this driver manually.\n"

/-- `install_driver(entry, file_path, os_type)` from `src/installer/core.py`,
returning the boolean outcome together with the manual-note content written (a
note is only written in the `manual` branch; its own write errors are caught
and do not change the outcome). -/
def installDriver (launch : Nat → Except Unit Int)
    (extract : Except Unit (List String)) (entry : ManifestEntry)
    (filePath osType timestamp : String) : Bool × Option String :=
  let driverType := pyLower entry.type
  if driverType = "manual" then
    (true, some (manualNoteContent entry timestamp))
  else if osType = "Windows" then
    if driverType = "exe" then ((installExe launch filePath entry.silentArgs).1, none)
    else if driverType = "msi" then ((installMsi launch filePath).1, none)
    else if driverType = "zip" then ((installZip launch extract filePath).1, none)
    else (false, none)
  else if osType = "Linux" then
    if driverType = "deb" then ((installDeb launch filePath).1, none)
    else if driverType = "rpm" then ((installRpm launch filePath).1, none)
    else (false, none)
  else (false, none)

theorem installExeGo_all_error (launch : Nat → Except Unit Int)
    (hraise : ∀ k, launch k = Except.error ()) (l : List String) :
    ∀ k, installExeGo launch k l = (false, -1) := by
  induction l with
  | nil => intro k; simp [installExeGo, hraise k]
  | cons a rest ih => intro k; simp [installExeGo, hraise k, ih (k + 1)]

/-- C1: the orchestrator is total — for every entry, file path, OS string and
oracle behaviour it returns an outcome — and when the launch mechanism itself
raises on every attempt (binary not found, permission denied), each per-type
installer degrades to the failure outcome with sentinel exit code `-1` rather
than propagating the exception. -/
theorem installDriver_total_and_launch_failure_degrades
    (launch : Nat → Except Unit Int) (extract : Except Unit (List String))
    (entry : ManifestEntry) (filePath osType timestamp : String)
    (hraise : ∀ k, launch k = Except.error ()) :
    installExe launch filePath entry.silentArgs = (false, -1) ∧
    installMsi launch filePath = (false, -1) ∧
    installDeb launch filePath = (false, -1) ∧
    installRpm launch filePath = (false, -1) ∧
    installZip launch extract filePath = (false, -1) ∧
    ∃ outcome : Bool × Option String,
      installDriver launch extract entry filePath osType timestamp = outcome := by
  refine ⟨installExeGo_all_error launch hraise _ 0, ?_, ?_, ?_, ?_, ⟨_, rfl⟩⟩
  · simp [installMsi, hraise 0]
  · simp [installDeb, hraise 0]
  · simp [installRpm, hraise 0]
  · unfold installZip
    cases extract with
    | error e => rfl
    | ok files =>
        dsimp only
        cases sortStrings
            (files.filter (fun f => strEndsWith f ".exe") ++
              files.filter (fun f => strEndsWith f ".msi")) with
        | nil => rfl
        | cons f rest =>
            dsimp only
            split
            · exact installExeGo_all_error launch hraise _ 0
            · split
              · simp [installMsi, hraise 0]
              · rfl

/-- C1, witness: the degradation theorem at a concrete entry and the
always-raising launch oracle. -/
theorem installDriver_total_and_launch_failure_degrades_witness :
    installExe (fun _ => Except.error ()) "wifi.exe" wifiEntry.silentArgs = (false, -1) ∧
    installMsi (fun _ => Except.error ()) "wifi.exe" = (false, -1) ∧
    installDeb (fun _ => Except.error ()) "wifi.exe" = (false, -1) ∧
    installRpm (fun _ => Except.error ()) "wifi.exe" = (false, -1) ∧
    installZip (fun _ => Except.error ()) (Except.ok []) "wifi.exe" = (false, -1) ∧
    ∃ outcome : Bool × Option String,
      installDriver (fun _ => Except.error ()) (Except.ok []) wifiEntry
        "wifi.exe" "Windows" "2026-01-01T00:00:00" = outcome :=
  installDriver_total_and_launch_failure_degrades
    (fun _ => Except.error ()) (Except.ok []) wifiEntry
    "wifi.exe" "Windows" "2026-01-01T00:00:00" (fun _ => rfl)

theorem installExeGo_first_accepted (launch : Nat → Except Unit Int)
    (l : List String) :
    ∀ (k0 i : Nat) (c : Int), i < l.length →
      launch (k0 + i) = Except.ok c → acceptedExit c = true →
      (∀ j, j < i → ∀ cj, launch (k0 + j) = Except.ok cj → acceptedExit cj = false) →
      installExeGo launch k0 l = (true, c) := by
  induction l with
  | nil => intro k0 i c hi; exact absurd hi (by simp)
  | cons a rest ih =>
      intro k0 i c hi hok hacc hprev
      cases i with
      | zero =>
          have h0 : launch k0 = Except.ok c := by simpa using hok
          simp [installExeGo, h0, hacc]
      | succ i' =>
          have hshift : k0 + (i' + 1) = (k0 + 1) + i' := by omega
          rw [hshift] at hok
          have hprev' : ∀ j, j < i' → ∀ cj,
              launch ((k0 + 1) + j) = Except.ok cj → acceptedExit cj = false := by
            intro j hj cj hcj
            refine hprev (j + 1) (by omega) cj ?_
            rw [show k0 + (j + 1) = (k0 + 1) + j by omega]
            exact hcj
          have htail := ih (k0 + 1) i' c (by simpa using hi) hok hacc hprev'
          cases hl : launch k0 with
          | error e => simpa [installExeGo, hl] using htail
          | ok c0 =>
              have hrej : acceptedExit c0 = false :=
                hprev 0 (by omega) c0 (by simpa using hl)
              simpa [installExeGo, hl, hrej] using htail

/-- C6: for Windows exe installation the silent flag sets are tried in a fixed
order — the entry's custom flags first, then `/S`, `/silent`, `/quiet`,
`/verysilent`, `/s`, then the two MSI-wrapped variants — and the cascade stops
at the first launch whose exit code is accepted (0, 3010 or 1641), reporting
success with that exit code; in particular when the custom-flag launch exits 1
and the following `/S` launch exits 0 the outcome is `(success, exit code 0)`. -/
theorem installExe_cascade_order (launch : Nat → Except Unit Int)
    (filePath : String) (args : Option String) (customArgs : String)
    (k : Nat) (c : Int)
    (hk : k < (exeAttempts args).length)
    (hok : launch k = Except.ok c) (hacc : acceptedExit c = true)
    (hprev : ∀ j, j < k → ∀ cj, launch j = Except.ok cj → acceptedExit cj = false) :
    exeAttempts (some customArgs) =
      [customArgs, "/S", "/silent", "/quiet", "/verysilent", "/s",
       "/s /v\"/qn\"", "/S /v\"/qn\""] ∧
    installExe launch filePath args = (true, c) := by
  constructor
  · rfl
  · exact installExeGo_first_accepted launch (exeAttempts args) 0 k c hk
      (by simpa using hok) hacc
      (by intro j hj cj hcj; exact hprev j hj cj (by simpa using hcj))

/-- C6, witness: the cascade theorem at the spec's scenario — custom flags
`/CUSTOM` whose launch exits 1, then `/S` whose launch exits 0; the outcome is
success with exit code 0. -/
theorem installExe_cascade_order_witness :
    installExe (fun k => if k = 0 then Except.ok 1 else Except.ok 0)
      "driver.exe" (some "/CUSTOM") = (true, 0) :=
  (installExe_cascade_order (fun k => if k = 0 then Except.ok 1 else Except.ok 0)
    "driver.exe" (some "/CUSTOM") "/CUSTOM" 1 0 (by decide) rfl rfl
    (by
      intro j hj cj hcj
      interval_cases j
      · simp only [if_true, Except.ok.injEq] at hcj
        rw [← hcj]
        decide)).2

theorem installExeGo_all_rejected (launch : Nat → Except Unit Int)
    (l : List String) :
    ∀ k0, (∀ j, j < l.length → ∀ cj,
        launch (k0 + j) = Except.ok cj → acceptedExit cj = false) →
      installExeGo launch k0 l =
        match launch (k0 + l.length) with
        | .ok c => (false, c)
        | .error _ => (false, -1) := by
  induction l with
  | nil => intro k0 _; simp [installExeGo]
  | cons a rest ih =>
      intro k0 hrej
      have hrest : ∀ j, j < rest.length → ∀ cj,
          launch ((k0 + 1) + j) = Except.ok cj → acceptedExit cj = false := by
        intro j hj cj hcj
        refine hrej (j + 1) (by simp; omega) cj ?_
        rw [show k0 + (j + 1) = (k0 + 1) + j by omega]
        exact hcj
      have htail := ih (k0 + 1) hrest
      rw [show (k0 + 1) + rest.length = k0 + (a :: rest).length by simp; omega] at htail
      cases hl : launch k0 with
      | error e => simpa [installExeGo, hl] using htail
      | ok c0 =>
          have : acceptedExit c0 = false := hrej 0 (by simp) c0 (by simpa using hl)
          simpa [installExeGo, hl, this] using htail

/-- C7: when every silent-flag attempt of `install_exe` fails to yield an
accepted exit code, a final flag-free launch is attempted and its raw result is
returned with `success = False` regardless of the exit code (and `-1` if that
launch itself raises): the branch reports what happened, not that the
installation succeeded. -/
theorem installExe_final_raw_attempt (launch : Nat → Except Unit Int)
    (filePath : String) (args : Option String)
    (hrej : ∀ j, j < (exeAttempts args).length → ∀ cj,
      launch j = Except.ok cj → acceptedExit cj = false) :
    installExe launch filePath args =
      match launch (exeAttempts args).length with
      | .ok c => (false, c)
      | .error _ => (false, -1) := by
  unfold installExe
  rw [installExeGo_all_rejected launch (exeAttempts args) 0
    (by intro j hj cj hcj; exact hrej j hj cj (by simpa using hcj))]
  simp

/-- C7, witness: with no custom flags every cascade launch exits 1 (rejected),
and the final flag-free launch also exits 1: the raw result `(False, 1)` is
returned even though the final launch did not raise. -/
theorem installExe_final_raw_attempt_witness :
    installExe (fun _ => Except.ok 1) "driver.exe" none = (false, 1) :=
  (installExe_final_raw_attempt (fun _ => Except.ok 1) "driver.exe" none
    (by
      intro j _ cj hcj
      simp only [Except.ok.injEq] at hcj
      subst hcj
      decide)).trans rfl

/-- C8: a manifest entry of type `manual` makes `install_driver` report success
for every OS string, file path and oracle behaviour; the result is independent
of the process-launch and extraction oracles (no process is launched), and the
note content written contains the entry's name, its URL text and the
timestamp. -/
theorem installDriver_manual (launch : Nat → Except Unit Int)
    (extract : Except Unit (List String)) (entry : ManifestEntry)
    (filePath osType timestamp : String)
    (hman : pyLower entry.type = "manual") :
    installDriver launch extract entry filePath osType timestamp =
      (true, some (manualNoteContent entry timestamp)) ∧
    (∀ (launch' : Nat → Except Unit Int) (extract' : Except Unit (List String)),
      installDriver launch' extract' entry filePath osType timestamp =
        installDriver launch extract entry filePath osType timestamp) ∧
    (∃ l₁ l₂ l₃ l₄ : List Char,
      (manualNoteContent entry timestamp).data =
        l₁ ++ entry.name.data ++
          (l₂ ++ (entry.url.getD "No URL provided").data ++
            (l₃ ++ timestamp.data ++ l₄))) := by
  refine ⟨by simp [installDriver, hman], ?_, ?_⟩
  · intro launch' extract'
    simp [installDriver, hman]
  · refine ⟨("Manual Installation Required\n" ++ eqSeparator ++ "\n\n" ++
        "Driver: ").data,
      ("\n" ++ "URL: ").data, ("\n" ++ "Timestamp: ").data,
      ("\n\n" ++ "Please download and install this driver manually.\n").data, ?_⟩
    simp [manualNoteContent]

/-- A `manual`-type manifest entry for the witness scenario. -/
def manualEntry : ManifestEntry :=
  { name := "BIOS Update", version := "", deviceId := "", os := "windows",
    type := "manual", silentArgs := none,
    url := some "https://example.com/bios", current_version := none }

/-- C8, witness: the manual-entry theorem at a concrete entry, with the
always-raising launch oracle: the outcome is success and the note content. -/
theorem installDriver_manual_witness :
    installDriver (fun _ => Except.error ()) (Except.ok []) manualEntry
      "any/path" "Linux" "2026-01-01T00:00:00" =
      (true, some (manualNoteContent manualEntry "2026-01-01T00:00:00")) :=
  (installDriver_manual (fun _ => Except.error ()) (Except.ok []) manualEntry
    "any/path" "Linux" "2026-01-01T00:00:00" (by decide)).1

/-! ## Idempotence analysis of `normalize_device_id` -/

theorem findPat_cons_none {pat : List Char} {c : Char} {rest : List Char}
    (h : findPat pat (c :: rest) = none) :
    pat.isPrefixOf (c :: rest) = false ∧ findPat pat rest = none := by
  unfold findPat at h
  by_cases hp : pat.isPrefixOf (c :: rest)
  · rw [if_pos hp] at h; exact Option.noConfusion h
  · rw [if_neg hp] at h
    exact ⟨Bool.of_not_eq_true hp, Option.map_eq_none'.mp h⟩

theorem findPat_of_isPrefixOf {pat s : List Char} (h : pat.isPrefixOf s = true) :
    findPat pat s = some 0 := by
  cases s with
  | nil => unfold findPat; rw [if_pos h]
  | cons c rest => unfold findPat; rw [if_pos h]

theorem hasPat_of_isPrefixOf {pat s : List Char} (h : pat.isPrefixOf s = true) :
    hasPat pat s = true := by
  unfold hasPat
  rw [findPat_of_isPrefixOf h]
  rfl

theorem hasPat_cons_false {pat : List Char} {c : Char} {rest : List Char}
    (h : hasPat pat (c :: rest) = false) : hasPat pat rest = false := by
  unfold hasPat at *
  cases hf : findPat pat (c :: rest) with
  | some k => rw [hf] at h; simp at h
  | none =>
      rw [(findPat_cons_none hf).2]
      rfl

theorem isPrefixOf_false_of_hasPat_false {pat s : List Char}
    (h : hasPat pat s = false) : pat.isPrefixOf s = false := by
  cases s with
  | nil =>
      unfold hasPat findPat at h
      by_cases hp : pat.isPrefixOf []
      · rw [if_pos hp] at h; simp at h
      · exact Bool.of_not_eq_true hp
  | cons c rest =>
      unfold hasPat at h
      cases hf : findPat pat (c :: rest) with
      | some k => rw [hf] at h; simp at h
      | none => exact (findPat_cons_none hf).1

theorem removeAllAux_id_of_hasPat_false (pat : List Char) :
    ∀ s : List Char, hasPat pat s = false → removeAllAux pat 0 s = s := by
  intro s
  induction s with
  | nil => intro _; rfl
  | cons c rest ih =>
      intro h
      have hnp := isPrefixOf_false_of_hasPat_false h
      unfold removeAllAux
      rw [if_neg (by simp [hnp])]
      rw [ih (hasPat_cons_false h)]

theorem removeAll_id_of_hasPat_false {pat s : List Char}
    (h : hasPat pat s = false) : removeAll pat s = s :=
  removeAllAux_id_of_hasPat_false pat s h

theorem mem_of_mem_removeAllAux (pat : List Char) :
    ∀ (s : List Char) (k : Nat) (c : Char), c ∈ removeAllAux pat k s → c ∈ s := by
  intro s
  induction s with
  | nil => intro k c h; exact absurd h (by simp [removeAllAux])
  | cons a rest ih =>
      intro k c h
      unfold removeAllAux at h
      cases k with
      | succ k' => exact List.mem_cons_of_mem a (ih k' c h)
      | zero =>
          by_cases hp : pat.isPrefixOf (a :: rest) ∧ pat ≠ []
          · rw [if_pos hp] at h
            exact List.mem_cons_of_mem a (ih _ c h)
          · rw [if_neg hp] at h
            rcases List.mem_cons.mp h with rfl | h'
            · exact List.mem_cons_self _ _
            · exact List.mem_cons_of_mem a (ih 0 c h')

theorem mem_of_mem_listSlice {l : List Char} {a b : Nat} {c : Char}
    (h : c ∈ listSlice l a b) : c ∈ l :=
  List.drop_subset a l (List.take_subset _ _ h)

theorem pyUpperChar_fixed_of_mem_normCore (s : List Char) :
    ∀ c ∈ normCore s, pyUpperChar c = c := by
  intro c hc
  unfold normCore at hc
  by_cases hs : s = []
  · rw [if_pos hs] at hc; cases hc
  · rw [if_neg hs] at hc
    dsimp only at hc
    have hup : ∀ d ∈ pyUpperList s, pyUpperChar d = d := by
      intro d hd
      rcases List.mem_map.mp hd with ⟨e, _, rfl⟩
      exact pyUpperChar_fixed e
    have hrem : ∀ d, d ∈ removeAll ("ACPI\\".data)
        (removeAll ("USB\\".data)
          (removeAll ("HDAUDIO\\".data)
            (removeAll ("PCI\\".data) (pyUpperList s)))) → pyUpperChar d = d := by
      intro d hd
      exact hup d (mem_of_mem_removeAllAux _ _ _ _
        (mem_of_mem_removeAllAux _ _ _ _
          (mem_of_mem_removeAllAux _ _ _ _
            (mem_of_mem_removeAllAux _ _ _ _ hd))))
    split at hc
    · unfold venDevExtract at hc
      rcases List.mem_append.mp hc with h4 | h5
      · rcases List.mem_append.mp h4 with hlit | hven
        · fin_cases hlit <;> decide
        · exact hrem c (mem_of_mem_listSlice hven)
      · rcases List.mem_cons.mp h5 with rfl | h6
        · decide
        · rcases List.mem_append.mp h6 with hlit | hdev
          · fin_cases hlit <;> decide
          · exact hrem c (mem_of_mem_listSlice hdev)
    · exact hrem c hc

theorem pyUpperList_fixed {l : List Char} (h : ∀ c ∈ l, pyUpperChar c = c) :
    pyUpperList l = l := by
  unfold pyUpperList
  rw [List.map_congr_left h]
  exact List.map_id' l

theorem findPat_char_none_of_not_mem {ch : Char} {l : List Char}
    (h : ch ∉ l) : findPat [ch] l = none := by
  induction l with
  | nil => rfl
  | cons c rest ih =>
      have hne : ch ≠ c := fun he => h (he ▸ List.mem_cons_self c rest)
      unfold findPat
      rw [if_neg (by simp [List.isPrefixOf, hne]), ih (fun hm => h (List.mem_cons_of_mem c hm))]
      rfl

theorem not_mem_of_findPat_char_none {ch : Char} {l : List Char}
    (h : findPat [ch] l = none) : ch ∉ l := by
  induction l with
  | nil => simp
  | cons c rest ih =>
      rcases findPat_cons_none h with ⟨hp, hrest⟩
      intro hm
      rcases List.mem_cons.mp hm with rfl | hm'
      · simp [List.isPrefixOf] at hp
      · exact ih hrest hm'

theorem not_mem_take_of_findPat_char {ch : Char} :
    ∀ {l : List Char} {k : Nat}, findPat [ch] l = some k →
      ∀ a ∈ l.take k, a ≠ ch := by
  intro l
  induction l with
  | nil => intro k h; unfold findPat at h; simp at h
  | cons c rest ih =>
      intro k h a ha
      unfold findPat at h
      by_cases hp : [ch].isPrefixOf (c :: rest)
      · rw [if_pos hp] at h
        have : k = 0 := by simpa using h.symm
        subst this
        simp at ha
      · rw [if_neg hp] at h
        rcases Option.map_eq_some'.mp h with ⟨k', hk', rfl⟩
        rw [List.take_succ_cons] at ha
        rcases List.mem_cons.mp ha with rfl | ha'
        · intro he; exact hp (by simp [List.isPrefixOf, he])
        · exact ih hk' a ha'

theorem findPat_char_append {ch : Char} {v : List Char} (t : List Char)
    (h : ch ∉ v) : findPat [ch] (v ++ ch :: t) = some v.length := by
  induction v with
  | nil =>
      rw [List.nil_append]
      unfold findPat
      rw [if_pos (by simp [List.isPrefixOf])]
      rfl
  | cons c v' ih =>
      have hne : ch ≠ c := fun he => h (he ▸ List.mem_cons_self c v')
      rw [List.cons_append]
      unfold findPat
      rw [if_neg (by simp [List.isPrefixOf, hne]),
        ih (fun hm => h (List.mem_cons_of_mem c hm))]
      rfl

theorem amp_not_mem_sliceTo (s : List Char) (st : Nat) :
    '&' ∉ listSlice s st
      (match findPat ['&'] (s.drop st) with
        | some k => st + k
        | none => s.length) := by
  cases hk : findPat ['&'] (s.drop st) with
  | some k =>
      intro hm
      unfold listSlice at hm
      rw [show st + k - st = k by omega] at hm
      exact not_mem_take_of_findPat_char hk '&' hm rfl
  | none =>
      intro hm
      unfold listSlice at hm
      rw [show s.length - st = (s.drop st).length by rw [List.length_drop],
        List.take_length] at hm
      exact not_mem_of_findPat_char_none hk hm

theorem amp_not_mem_venField (s : List Char) : '&' ∉ venField s := by
  unfold venField
  exact amp_not_mem_sliceTo s _

theorem amp_not_mem_devField (s : List Char) : '&' ∉ devField s := by
  unfold devField
  exact amp_not_mem_sliceTo s _

theorem ven_data_eq : "VEN_".data = ['V', 'E', 'N', '_'] := rfl

theorem dev_data_eq : "DEV_".data = ['D', 'E', 'V', '_'] := rfl

theorem devPrefix_through_amp (w t' : List Char)
    (h : (['D', 'E', 'V', '_'] : List Char).isPrefixOf (w ++ '&' :: t') = true) :
    (['D', 'E', 'V', '_'] : List Char).isPrefixOf w = true := by
  match w with
  | [] => simp [List.isPrefixOf] at h
  | [a] => simp [List.isPrefixOf] at h
  | [a, b] => simp [List.isPrefixOf] at h
  | [a, b, c] => simp [List.isPrefixOf] at h
  | a :: b :: c :: e :: rest =>
      simp [List.isPrefixOf] at h ⊢
      exact h

theorem findPat_cons_of_head_ne {p c : Char} (ps rest : List Char) (h : p ≠ c) :
    findPat (p :: ps) (c :: rest) = (findPat (p :: ps) rest).map (· + 1) := by
  simp only [findPat]
  rw [if_neg (by simp [List.isPrefixOf, h])]

theorem findPat_dev_canonical (d : List Char) :
    ∀ v : List Char, hasPat (['D', 'E', 'V', '_'] : List Char) v = false →
      '&' ∉ v →
      findPat ['D', 'E', 'V', '_']
        (v ++ '&' :: 'D' :: 'E' :: 'V' :: '_' :: d) = some (v.length + 1) := by
  intro v
  induction v with
  | nil =>
      intro _ _
      rw [List.nil_append,
        findPat_cons_of_head_ne _ _ (by decide : 'D' ≠ '&'),
        findPat_of_isPrefixOf (by simp [List.isPrefixOf])]
      rfl
  | cons c v' ih =>
      intro hnp hamp
      rw [List.cons_append]
      unfold findPat
      rw [if_neg ?pre]
      case pre =>
        intro hp
        rw [← List.cons_append] at hp
        have hpre := devPrefix_through_amp (c :: v') _ hp
        rw [hasPat_of_isPrefixOf hpre] at hnp
        exact Bool.noConfusion hnp
      rw [ih (hasPat_cons_false hnp) (fun hm => hamp (List.mem_cons_of_mem c hm))]
      simp

theorem findPat_dev_in_extract (v d : List Char)
    (hnp : hasPat (['D', 'E', 'V', '_'] : List Char) v = false) (hamp : '&' ∉ v) :
    findPat ['D', 'E', 'V', '_']
      ('V' :: 'E' :: 'N' :: '_' :: (v ++ '&' :: 'D' :: 'E' :: 'V' :: '_' :: d)) =
      some (v.length + 5) := by
  rw [findPat_cons_of_head_ne _ _ (by decide : 'D' ≠ 'V'),
    findPat_cons_of_head_ne _ _ (by decide : 'D' ≠ 'E'),
    findPat_cons_of_head_ne _ _ (by decide : 'D' ≠ 'N'),
    findPat_cons_of_head_ne _ _ (by decide : 'D' ≠ '_'),
    findPat_dev_canonical d v hnp hamp]
  simp only [Option.map_some', Option.some.injEq]

theorem hasPat_append_of_hasPat (pat t : List Char) :
    ∀ s : List Char, hasPat pat t = true → hasPat pat (s ++ t) = true := by
  intro s
  induction s with
  | nil => intro h; simpa using h
  | cons c s' ih =>
      intro h
      rw [List.cons_append]
      unfold hasPat findPat
      by_cases hp : pat.isPrefixOf (c :: (s' ++ t))
      · rw [if_pos hp]; rfl
      · rw [if_neg hp]
        have := ih h
        unfold hasPat at this
        cases hf : findPat pat (s' ++ t) with
        | none => rw [hf] at this; simp at this
        | some k => rfl

theorem hasVen_extract (v d : List Char) :
    hasPat ("VEN_".data) ("VEN_".data ++ v ++ ('&' :: ("DEV_".data ++ d))) = true := by
  rw [List.append_assoc]
  exact hasPat_of_isPrefixOf (List.isPrefixOf_iff_prefix.mpr ⟨_, rfl⟩)

theorem hasDev_extract (v d : List Char) :
    hasPat ("DEV_".data) ("VEN_".data ++ v ++ ('&' :: ("DEV_".data ++ d))) = true := by
  rw [List.append_assoc]
  apply hasPat_append_of_hasPat
  apply hasPat_append_of_hasPat
  rw [show ('&' :: ("DEV_".data ++ d)) = ['&'] ++ ("DEV_".data ++ d) from rfl]
  apply hasPat_append_of_hasPat
  exact hasPat_of_isPrefixOf (List.isPrefixOf_iff_prefix.mpr ⟨_, rfl⟩)

theorem venField_extract (v d : List Char) (hampv : '&' ∉ v) :
    venField ("VEN_".data ++ v ++ ('&' :: ("DEV_".data ++ d))) = v := by
  have hfv : findPat ("VEN_".data)
      ("VEN_".data ++ v ++ ('&' :: ("DEV_".data ++ d))) = some 0 := by
    apply findPat_of_isPrefixOf
    rw [List.append_assoc]
    exact List.isPrefixOf_iff_prefix.mpr ⟨_, rfl⟩
  have hdrop4 : ("VEN_".data ++ v ++ ('&' :: ("DEV_".data ++ d))).drop 4 =
      v ++ '&' :: ("DEV_".data ++ d) := by
    rw [List.append_assoc, show (4 : Nat) = ("VEN_".data).length from rfl,
      List.drop_left]
  have hfa : findPat ['&']
      (("VEN_".data ++ v ++ ('&' :: ("DEV_".data ++ d))).drop 4) = some v.length := by
    rw [hdrop4]
    exact findPat_char_append _ hampv
  simp only [venField, hfv, Option.getD_some, Nat.zero_add, hfa, listSlice]
  rw [show 4 + v.length - 4 = v.length from by omega, hdrop4]
  exact List.take_left _ _

theorem devField_extract (v d : List Char) (hampv : '&' ∉ v) (hampd : '&' ∉ d)
    (hdv : hasPat ("DEV_".data) v = false) :
    devField ("VEN_".data ++ v ++ ('&' :: ("DEV_".data ++ d))) = d := by
  have hfd : findPat ("DEV_".data)
      ("VEN_".data ++ v ++ ('&' :: ("DEV_".data ++ d))) = some (v.length + 5) := by
    rw [show ("VEN_".data ++ v ++ ('&' :: ("DEV_".data ++ d))) =
        ('V' :: 'E' :: 'N' :: '_' :: (v ++ '&' :: 'D' :: 'E' :: 'V' :: '_' :: d))
      from rfl]
    exact findPat_dev_in_extract v d hdv hampv
  have hsplit : ("VEN_".data ++ v ++ ('&' :: ("DEV_".data ++ d))) =
      ("VEN_".data ++ v ++ ('&' :: "DEV_".data)) ++ d := by
    simp [List.append_assoc]
  have hlen : v.length + 5 + 4 = ("VEN_".data ++ v ++ ('&' :: "DEV_".data)).length := by
    simp only [List.length_append, List.length_cons, ven_data_eq, dev_data_eq]
    simp
    omega
  have hdropD : ("VEN_".data ++ v ++ ('&' :: ("DEV_".data ++ d))).drop
      (v.length + 5 + 4) = d := by
    rw [hsplit, hlen, List.drop_left]
  have hfad : findPat ['&']
      (("VEN_".data ++ v ++ ('&' :: ("DEV_".data ++ d))).drop (v.length + 5 + 4)) =
      none := by
    rw [hdropD]
    exact findPat_char_none_of_not_mem hampd
  have hlen2 : ("VEN_".data ++ v ++ ('&' :: ("DEV_".data ++ d))).length -
      (v.length + 5 + 4) = d.length := by
    simp only [List.length_append, List.length_cons, ven_data_eq, dev_data_eq]
    simp
    omega
  simp only [devField, hfd, Option.getD_some, hfad, listSlice]
  rw [hlen2, hdropD, List.take_length]

theorem venDevExtract_fixed (v d : List Char) (hampv : '&' ∉ v) (hampd : '&' ∉ d)
    (hdv : hasPat ("DEV_".data) v = false) :
    venDevExtract ("VEN_".data ++ v ++ ('&' :: ("DEV_".data ++ d))) =
      "VEN_".data ++ v ++ ('&' :: ("DEV_".data ++ d)) := by
  unfold venDevExtract
  rw [venField_extract v d hampv, devField_extract v d hampv hampd hdv]

/-- C9, amended: `normalize_device_id` is idempotent on every input whose
normalized output contains none of the bus-prefix substrings `PCI\`,
`HDAUDIO\`, `USB\`, `ACPI\` and — when the output contains both `VEN_` and
`DEV_` — whose output's vendor field contains no `DEV_` of its own.  (The
counterexample shows idempotence fails in general: a prefix removal can
re-create another prefix; an early `DEV_` inside the vendor field can likewise
shift the extraction on a second pass.) -/
theorem normalizeDeviceId_idem_conditional (x : String)
    (h1 : hasPat ("PCI\\".data) (normalizeDeviceId x).data = false)
    (h2 : hasPat ("HDAUDIO\\".data) (normalizeDeviceId x).data = false)
    (h3 : hasPat ("USB\\".data) (normalizeDeviceId x).data = false)
    (h4 : hasPat ("ACPI\\".data) (normalizeDeviceId x).data = false)
    (h5 : hasPat ("VEN_".data) (normalizeDeviceId x).data = true →
      hasPat ("DEV_".data) (normalizeDeviceId x).data = true →
      hasPat ("DEV_".data) (venField (normalizeDeviceId x).data) = false) :
    normalizeDeviceId (normalizeDeviceId x) = normalizeDeviceId x := by
  have hu : ∀ c ∈ normCore x.data, pyUpperChar c = c :=
    pyUpperChar_fixed_of_mem_normCore x.data
  have hshape : normCore x.data = [] ∨ ∃ r : List Char, normCore x.data =
      (if hasPat ("VEN_".data) r ∧ hasPat ("DEV_".data) r then venDevExtract r
       else r) := by
    by_cases hx0 : x.data = []
    · left
      unfold normCore
      rw [if_pos hx0]
    · right
      refine ⟨removeAll ("ACPI\\".data)
        (removeAll ("USB\\".data)
          (removeAll ("HDAUDIO\\".data)
            (removeAll ("PCI\\".data) (pyUpperList x.data)))), ?_⟩
      unfold normCore
      rw [if_neg hx0]
  replace h1 : hasPat ("PCI\\".data) (normCore x.data) = false := h1
  replace h2 : hasPat ("HDAUDIO\\".data) (normCore x.data) = false := h2
  replace h3 : hasPat ("USB\\".data) (normCore x.data) = false := h3
  replace h4 : hasPat ("ACPI\\".data) (normCore x.data) = false := h4
  replace h5 : hasPat ("VEN_".data) (normCore x.data) = true →
      hasPat ("DEV_".data) (normCore x.data) = true →
      hasPat ("DEV_".data) (venField (normCore x.data)) = false := h5
  show (⟨normCore (normCore x.data)⟩ : String) = ⟨normCore x.data⟩
  have hcore : normCore (normCore x.data) = normCore x.data := by
    generalize hg : normCore x.data = y at h1 h2 h3 h4 h5 hu hshape
    rcases hshape with hy0 | ⟨r, hr⟩
    · rw [hy0]
      simp [normCore]
    · by_cases hy0 : y = []
      · rw [hy0]
        simp [normCore]
      · unfold normCore
        rw [if_neg hy0]
        dsimp only
        rw [pyUpperList_fixed hu, removeAll_id_of_hasPat_false h1,
          removeAll_id_of_hasPat_false h2, removeAll_id_of_hasPat_false h3,
          removeAll_id_of_hasPat_false h4]
        by_cases hbr : hasPat ("VEN_".data) r ∧ hasPat ("DEV_".data) r
        · rw [if_pos hbr] at hr
          subst hr
          have hampv := amp_not_mem_venField r
          have hampd := amp_not_mem_devField r
          have hven := hasVen_extract (venField r) (devField r)
          have hdev := hasDev_extract (venField r) (devField r)
          have hdv : hasPat ("DEV_".data) (venField r) = false := by
            have h5' := h5 hven hdev
            rw [show venDevExtract r =
                "VEN_".data ++ venField r ++
                  ('&' :: ("DEV_".data ++ devField r)) from rfl,
              venField_extract _ _ hampv] at h5'
            exact h5'
          rw [show venDevExtract r =
            "VEN_".data ++ venField r ++
              ('&' :: ("DEV_".data ++ devField r)) from rfl]
          rw [if_pos ⟨hven, hdev⟩]
          exact venDevExtract_fixed (venField r) (devField r) hampv hampd hdv
        · rw [if_neg hbr] at hr
          subst hr
          rw [if_neg hbr]
  rw [hcore]

/-- C9, witness: the conditional idempotence theorem applied at the spec's own
device-ID example, whose normalized form `VEN_8086&DEV_2723` is prefix-free
with a clean vendor field. -/
theorem normalizeDeviceId_idem_conditional_witness :
    normalizeDeviceId (normalizeDeviceId "PCI\\VEN_8086&DEV_2723&SUBSYS_1234") =
      normalizeDeviceId "PCI\\VEN_8086&DEV_2723&SUBSYS_1234" :=
  normalizeDeviceId_idem_conditional "PCI\\VEN_8086&DEV_2723&SUBSYS_1234"
    (by decide) (by decide) (by decide) (by decide) (by decide)
